import Mathlib

/-!
# Verification of the game-movement DSL compiler pipeline

A shallow embedding of `Compiler.py`: lexer, recursive-descent parser,
semantic checker, three-address-code (TAC) generator, peephole optimizer and
TAC interpreter, together with proofs about the pipeline.

Python exceptions are modelled by `Except Err`; Python `Optional` values by
`Option`; Python strings by Lean `String`.  The Python character classes
`str.isalpha` / `str.isdigit` / `str.lower` are Unicode-aware; the embedding
models them exactly on all code points below `0x100` (ASCII plus the Latin-1
supplement, which is where their non-ASCII behaviour is observable in this
program's error classification), and treats code points from `0x100` up as
unclassified.
-/

namespace GameDSL

deriving instance DecidableEq for Except

/-- Structured diagnostics.  The Python source raises built-in exceptions
(`SyntaxError`, `SemanticError`, `RuntimeError`, and the implicit
`TypeError`/`ValueError`/`AttributeError`/`IndexError` crashes); the
constructors keep the data those messages interpolate. -/
inductive Err where
  | lexUnknownIdentifier (word : String) (pos : Nat)
  | lexUnexpectedCharacter (c : Char) (pos : Nat)
  | syntaxError (msg : String)
  | semanticError (msg : String)
  | runtimeError (msg : String)
  | indexError
  | valueError
  | typeError
  | attributeError
deriving DecidableEq, Repr

/-- `Token` dataclass: `{type, value, pos}`. -/
structure Token where
  type : String
  value : String
  pos : Nat
deriving DecidableEq, Repr

/-- The `KEYWORDS` table of the lexer. -/
def KEYWORDS : List (String × String) :=
  [("move", "MOVE"), ("turn", "TURN"), ("left", "LEFT"),
   ("right", "RIGHT"), ("jump", "JUMP"), ("attack", "ATTACK")]

/-- `is_letter` (Python `str.isalpha`), modelled exactly on code points
below `0x100`, where Python's letters are `A`-`Z`, `a`-`z`, `ª` (0xAA),
`µ` (0xB5), `º` (0xBA), `À`-`Ö` (0xC0-0xD6), `Ø`-`ö` (0xD8-0xF6) and
`ø`-`ÿ` (0xF8-0xFF).  Code points from `0x100` up are outside the modelled
fragment and classified as non-letters. -/
def is_letter (c : Char) : Bool :=
  decide ((65 ≤ c.toNat ∧ c.toNat ≤ 90) ∨ (97 ≤ c.toNat ∧ c.toNat ≤ 122) ∨
    c.toNat = 0xAA ∨ c.toNat = 0xB5 ∨ c.toNat = 0xBA ∨
    (0xC0 ≤ c.toNat ∧ c.toNat ≤ 0xD6) ∨ (0xD8 ≤ c.toNat ∧ c.toNat ≤ 0xF6) ∨
    (0xF8 ≤ c.toNat ∧ c.toNat ≤ 0xFF))

/-- `is_digit` (Python `str.isdigit`), modelled exactly on code points below
`0x100`, where Python's digits are `0`-`9`, `²` (0xB2), `³` (0xB3) and
`¹` (0xB9).  Code points from `0x100` up are outside the modelled fragment
and classified as non-digits. -/
def is_digit (c : Char) : Bool :=
  decide ((48 ≤ c.toNat ∧ c.toNat ≤ 57) ∨ c.toNat = 0xB2 ∨ c.toNat = 0xB3 ∨ c.toNat = 0xB9)

/-- One character of Python `str.lower`, modelled exactly on code points
below `0x100`: `A`-`Z` and `À`-`Þ` (except `×`, 0xD7) lower by +32; every
other character in the range is unchanged (`ß` included).  Code points from
`0x100` up are left unchanged. -/
def char_lower (c : Char) : Char :=
  if (65 ≤ c.toNat ∧ c.toNat ≤ 90) ∨
     (0xC0 ≤ c.toNat ∧ c.toNat ≤ 0xDE ∧ c.toNat ≠ 0xD7) then
    Char.ofNat (c.toNat + 32)
  else c

/-- Python `str.lower` (per-character lowering on the modelled range). -/
def str_lower (s : String) : String := String.mk (s.data.map char_lower)

/-- The scanning loop of `lex`: current remaining characters, current
offset `i`, tokens produced so far (reversed).  The fuel argument only bounds
the number of loop iterations so that the recursion is structural; `lex`
passes `length + 1`, which always suffices because every iteration consumes
at least one character. -/
def lexFrom : Nat → List Char → Nat → List Token → Except Err (List Token)
  | 0, _, _, _ => .error .indexError
  | _ + 1, [], i, acc => .ok (acc.reverse ++ [⟨"EOF", "", i⟩])
  | fuel + 1, c :: cs, i, acc =>
    if c = ' ' ∨ c = '\t' ∨ c = '\r' ∨ c = '\n' then
      lexFrom fuel cs (i + 1) acc
    else if c = ';' then
      lexFrom fuel cs (i + 1) (⟨"SEMICOLON", ";", i⟩ :: acc)
    else if is_digit c then
      lexFrom fuel (cs.dropWhile is_digit) (i + (c :: cs.takeWhile is_digit).length)
        (⟨"NUMBER", String.mk (c :: cs.takeWhile is_digit), i⟩ :: acc)
    else if is_letter c then
      match KEYWORDS.lookup (str_lower (String.mk (c :: cs.takeWhile is_letter))) with
      | some ty =>
        lexFrom fuel (cs.dropWhile is_letter) (i + (c :: cs.takeWhile is_letter).length)
          (⟨ty, str_lower (String.mk (c :: cs.takeWhile is_letter)), i⟩ :: acc)
      | none => .error (.lexUnknownIdentifier (str_lower (String.mk (c :: cs.takeWhile is_letter))) i)
    else
      .error (.lexUnexpectedCharacter c i)

/-- `lex`: scan the whole text, emitting a final EOF token. -/
def lex (text : String) : Except Err (List Token) :=
  lexFrom (text.data.length + 1) text.data 0 []

/-- `Stmt` dataclass: `{kind, arg, subkind, pos}`. -/
structure Stmt where
  kind : String
  arg : Option Int
  subkind : Option String
  pos : Nat
deriving DecidableEq, Repr

/-- `Program` dataclass. -/
structure Program where
  statements : List Stmt
deriving DecidableEq, Repr

/-- Numeric value of one decimal digit character. -/
def charVal (c : Char) : Nat := c.toNat - 48

/-- Value of a nonempty all-digit character run, else `none`. -/
def decDigits? (cs : List Char) : Option Nat :=
  if cs ≠ [] ∧ cs.all Char.isDigit then
    some (cs.foldl (fun acc c => acc * 10 + charVal c) 0)
  else none

/-- Python `int(s)` on a canonical integer literal (optional sign followed by
decimal digits); `none` models the `ValueError` raised otherwise.  (Python's
`int` additionally strips whitespace and allows `_` separators; no string the
pipeline feeds to `int` uses those forms.) -/
def pyInt? (s : String) : Option Int :=
  match s.data with
  | '-' :: cs => (decDigits? cs).map (fun n => -(n : Int))
  | '+' :: cs => (decDigits? cs).map (fun n => (n : Int))
  | cs => (decDigits? cs).map (fun n => (n : Int))

/-- `Parser.parse_stmt`: dispatch on the current token, consume the exact
expected token kinds of the chosen production, return the statement and the
remaining tokens.  `Parser.consume` is inlined at each call site: `peek` on an
exhausted token list is the Python `IndexError`, a kind mismatch is the
`SyntaxError` with the same message data. -/
def parse_stmt : List Token → Except Err (Stmt × List Token)
  | [] => .error .indexError
  | tok :: rest =>
    if tok.type = "MOVE" then
      match rest with
      | [] => .error .indexError
      | num :: rest2 =>
        if num.type = "NUMBER" then
          match rest2 with
          | [] => .error .indexError
          | semi :: rest3 =>
            if semi.type = "SEMICOLON" then
              match pyInt? num.value with
              | some v => .ok (⟨"MOVE", some v, none, tok.pos⟩, rest3)
              | none => .error .valueError
            else .error (.syntaxError ("Expected SEMICOLON at pos " ++ toString semi.pos ++ ", got " ++ semi.type))
        else .error (.syntaxError ("Expected NUMBER at pos " ++ toString num.pos ++ ", got " ++ num.type))
    else if tok.type = "TURN" then
      match rest with
      | [] => .error .indexError
      | d :: rest2 =>
        if d.type = "LEFT" ∨ d.type = "RIGHT" then
          match rest2 with
          | [] => .error .indexError
          | semi :: rest3 =>
            if semi.type = "SEMICOLON" then
              .ok (⟨"TURN", none, some d.type, tok.pos⟩, rest3)
            else .error (.syntaxError ("Expected SEMICOLON at pos " ++ toString semi.pos ++ ", got " ++ semi.type))
        else .error (.syntaxError ("Expected LEFT or RIGHT at pos " ++ toString d.pos))
    else if tok.type = "JUMP" then
      match rest with
      | [] => .error .indexError
      | num :: rest2 =>
        if num.type = "NUMBER" then
          match rest2 with
          | [] => .error .indexError
          | semi :: rest3 =>
            if semi.type = "SEMICOLON" then
              match pyInt? num.value with
              | some v => .ok (⟨"JUMP", some v, none, tok.pos⟩, rest3)
              | none => .error .valueError
            else .error (.syntaxError ("Expected SEMICOLON at pos " ++ toString semi.pos ++ ", got " ++ semi.type))
        else .error (.syntaxError ("Expected NUMBER at pos " ++ toString num.pos ++ ", got " ++ num.type))
    else if tok.type = "ATTACK" then
      match rest with
      | [] => .error .indexError
      | semi :: rest2 =>
        if semi.type = "SEMICOLON" then
          .ok (⟨"ATTACK", none, none, tok.pos⟩, rest2)
        else .error (.syntaxError ("Expected SEMICOLON at pos " ++ toString semi.pos ++ ", got " ++ semi.type))
    else .error (.syntaxError ("Unexpected token " ++ tok.type ++ " at pos " ++ toString tok.pos))

/-- The `while self.peek().type != "EOF"` loop of `Parser.parse`.  The fuel
argument bounds the number of iterations; `parse` supplies the token-list
length, which always suffices because `parse_stmt` consumes at least one
token per successful iteration. -/
def parse_stmts : Nat → List Token → Except Err (List Stmt)
  | 0, _ => .error .indexError
  | _ + 1, [] => .error .indexError
  | fuel + 1, t :: ts' =>
    if t.type = "EOF" then .ok []
    else
      match parse_stmt (t :: ts') with
      | .error e => .error e
      | .ok (s, rest) =>
        match parse_stmts fuel rest with
        | .error e => .error e
        | .ok ss => .ok (s :: ss)

/-- `Parser.parse`. -/
def parse (ts : List Token) : Except Err Program :=
  (parse_stmts ts.length ts).map Program.mk

/-- One iteration of the `semantic_check` loop.  The two `if` statements are
sequential (not `elif`) in the source: a statement is subject to both checks.
`s.arg < 0` with `s.arg = None` is the Python `TypeError`. -/
def semantic_check_stmt (s : Stmt) : Except Err Unit := do
  if s.kind = "MOVE" ∨ s.kind = "JUMP" then
    match s.arg with
    | none => throw .typeError
    | some a =>
      if a < 0 then
        throw (.semanticError ("Argument must be >=0 at pos " ++ toString s.pos ++ " (got " ++ toString a ++ ")"))
  if s.kind = "TURN" ∧ ¬(s.subkind = some "LEFT" ∨ s.subkind = some "RIGHT") then
    throw (.semanticError ("Invalid direction at pos " ++ toString s.pos))

/-- `semantic_check`: check each statement in program order, failing fast. -/
def semantic_check (p : Program) : Except Err Unit :=
  p.statements.foldlM (fun _ s => semantic_check_stmt s) ()

/-- `TACInstr` dataclass: `{op, arg, arg2, result}`, all but `op` defaulting
to `None`.  `assign` instructions use `arg` for the value text and `result`
for the temporary; `call` instructions use `arg` for the callee name and
`arg2` for the optional temporary argument. -/
structure TACInstr where
  op : String
  arg : Option String := none
  arg2 : Option String := none
  result : Option String := none
deriving DecidableEq, Repr

/-- Python `str(x)` for `x : Optional[int]` (`str(None) = "None"`). -/
def pyStr : Option Int → String
  | some n => toString n
  | none => "None"

/-- Python `str(x)` for `x : Optional[str]`. -/
def pyStrS : Option String → String
  | some s => s
  | none => "None"

/-- The name `f"t{tcount}"` of temporary number `tcount`. -/
def tname (k : Nat) : String := "t" ++ toString k

/-- The statement loop of `generate_tac`, threading the `tcount` counter.
`temp()` increments the counter before use, so the first temporary is `t1`.
A `TURN` statement with `subkind = None` would crash `None.lower()`
(`AttributeError`); statements of unrecognized kind produce no instructions
(no `else` branch in the source). -/
def generate_tac_aux : List Stmt → Nat → Except Err (List TACInstr)
  | [], _ => .ok []
  | s :: rest, tcount =>
    if s.kind = "MOVE" then
      let t := tname (tcount + 1)
      match generate_tac_aux rest (tcount + 1) with
      | .ok l => .ok (⟨"assign", some (pyStr s.arg), none, some t⟩ :: ⟨"call", some "move", some t, none⟩ :: l)
      | .error e => .error e
    else if s.kind = "JUMP" then
      let t := tname (tcount + 1)
      match generate_tac_aux rest (tcount + 1) with
      | .ok l => .ok (⟨"assign", some (pyStr s.arg), none, some t⟩ :: ⟨"call", some "jump", some t, none⟩ :: l)
      | .error e => .error e
    else if s.kind = "TURN" then
      match s.subkind with
      | none => .error .attributeError
      | some d =>
        match generate_tac_aux rest tcount with
        | .ok l => .ok (⟨"call", some ("turn_" ++ str_lower d), none, none⟩ :: l)
        | .error e => .error e
    else if s.kind = "ATTACK" then
      match generate_tac_aux rest tcount with
      | .ok l => .ok (⟨"call", some "attack", none, none⟩ :: l)
      | .error e => .error e
    else generate_tac_aux rest tcount

/-- `generate_tac`: `tcount` starts at 0. -/
def generate_tac (p : Program) : Except Err (List TACInstr) :=
  generate_tac_aux p.statements 0

/-- Guard of the dead zero-argument elimination in `optimize_tac`:
`curr.op == "assign" and curr.arg == "0"` and
`nxt.op == "call" and nxt.arg in ("move", "jump") and nxt.arg2 == curr.result`. -/
def dead_pair (curr nxt : TACInstr) : Prop :=
  curr.op = "assign" ∧ curr.arg = some "0" ∧ nxt.op = "call" ∧
    (nxt.arg = some "move" ∨ nxt.arg = some "jump") ∧ nxt.arg2 = curr.result

instance (curr nxt : TACInstr) : Decidable (dead_pair curr nxt) :=
  inferInstanceAs (Decidable (curr.op = "assign" ∧ curr.arg = some "0" ∧ nxt.op = "call" ∧
    (nxt.arg = some "move" ∨ nxt.arg = some "jump") ∧ nxt.arg2 = curr.result))

/-- Guard of the redundant turn elimination in `optimize_tac`: the source
compares only the `arg` fields of the two instructions. -/
def cancel_pair (curr nxt : TACInstr) : Prop :=
  (curr.arg = some "turn_left" ∧ nxt.arg = some "turn_right") ∨
  (curr.arg = some "turn_right" ∧ nxt.arg = some "turn_left")

instance (curr nxt : TACInstr) : Decidable (cancel_pair curr nxt) :=
  inferInstanceAs (Decidable ((curr.arg = some "turn_left" ∧ nxt.arg = some "turn_right") ∨
    (curr.arg = some "turn_right" ∧ nxt.arg = some "turn_left")))

/-- `optimize_tac`: one left-to-right sweep.  At each position, try the dead
zero-argument rule, then the turn-cancellation rule (each needing a lookahead
instruction and advancing the scan by 2), else keep the instruction and
advance by 1. -/
def optimize_tac : List TACInstr → List TACInstr
  | [] => []
  | [curr] => [curr]
  | curr :: nxt :: rest =>
    if dead_pair curr nxt then optimize_tac rest
    else if cancel_pair curr nxt then optimize_tac rest
    else curr :: optimize_tac (nxt :: rest)

/-- One simulated action of `exec_TAC` (one `[SIM]` line): move/jump carry
the looked-up payload, which is `None` exactly when the environment lookup
missed or the call had no argument. -/
inductive Action where
  | MOVE (x : Option Int)
  | JUMP (x : Option Int)
  | TURN_LEFT
  | TURN_RIGHT
  | ATTACK
deriving DecidableEq, Repr

/-- The instruction loop of `exec_TAC`.  The environment is an association
list with most-recent binding first, observationally equal to the Python
`dict` under `env[k] = v` / `env.get(k)`.  `x = env.get(instr.arg2) if
instr.arg2 else None`: the Python truthiness test is false for `None` and for
the empty string.  Instructions whose `op` is neither `assign` nor `call` are
silently skipped (no `else` branch in the source loop). -/
def exec_aux : List (Option String × Int) → List Action → List TACInstr → Except Err (List Action)
  | _, acc, [] => .ok acc.reverse
  | env, acc, instr :: rest =>
    if instr.op = "assign" then
      match instr.arg with
      | none => .error .typeError
      | some s =>
        match pyInt? s with
        | none => .error .valueError
        | some v => exec_aux ((instr.result, v) :: env) acc rest
    else if instr.op = "call" then
      if instr.arg = some "move" then
        exec_aux env
          (.MOVE (match instr.arg2 with
                  | some a2 => if a2 = "" then none else env.lookup (some a2)
                  | none => none) :: acc) rest
      else if instr.arg = some "jump" then
        exec_aux env
          (.JUMP (match instr.arg2 with
                  | some a2 => if a2 = "" then none else env.lookup (some a2)
                  | none => none) :: acc) rest
      else if instr.arg = some "turn_left" then exec_aux env (.TURN_LEFT :: acc) rest
      else if instr.arg = some "turn_right" then exec_aux env (.TURN_RIGHT :: acc) rest
      else if instr.arg = some "attack" then exec_aux env (.ATTACK :: acc) rest
      else .error (.runtimeError ("Unknown call " ++ pyStrS instr.arg))
    else exec_aux env acc rest

/-- `exec_TAC`: run the instruction list against a fresh empty environment,
producing the ordered sequence of simulated actions. -/
def exec_TAC (tac : List TACInstr) : Except Err (List Action) :=
  exec_aux [] [] tac

/-- The whitespace characters stripped by Python `str.lstrip()` (ASCII
fragment). -/
def PY_WHITESPACE : List Char := [' ', '\t', '\n', '\r', '\x0b', '\x0c']

/-- Python `text.lstrip()` (ASCII fragment). -/
def lstrip (s : String) : String := String.mk (s.data.dropWhile (· ∈ PY_WHITESPACE))

/-- `compile_and_run`, restricted to the core pipeline (the tracing `print`
calls are presentational): lstrip, lex, parse, semantic check, TAC
generation, optimization, execution of the optimized TAC. -/
def compile_and_run (text : String) : Except Err (List Action) :=
  match lex (lstrip text) with
  | .error e => .error e
  | .ok tokens =>
    match parse tokens with
    | .error e => .error e
    | .ok program =>
      match semantic_check program with
      | .error e => .error e
      | .ok () =>
        match generate_tac program with
        | .error e => .error e
        | .ok tac => exec_TAC (optimize_tac tac)

/-- The optimized instruction list the pipeline hands to `exec_TAC` (the
value of `optimized_tac` inside `compile_and_run`). -/
def compile_opt_tac (text : String) : Except Err (List TACInstr) :=
  match lex (lstrip text) with
  | .error e => .error e
  | .ok tokens =>
    match parse tokens with
    | .error e => .error e
    | .ok program =>
      match semantic_check program with
      | .error e => .error e
      | .ok () =>
        match generate_tac program with
        | .error e => .error e
        | .ok tac => .ok (optimize_tac tac)

/-- Two sequential invocations of the whole pipeline on the same source
text.  No state survives one `compile_and_run` call in the source: the token
list, AST, counter and environment are all local to the call. -/
def run_twice (text : String) : Except Err (List Action) × Except Err (List Action) :=
  (compile_and_run text, compile_and_run text)

/-! ### Proof-support definitions -/

/-- Decimal digit characters of `n`, most significant first: a structurally
transparent version of `Nat.toDigits 10`, used to reason about `Nat.repr`. -/
def digits10 (n : Nat) : List Char :=
  if n < 10 then [Nat.digitChar n]
  else digits10 (n / 10) ++ [Nat.digitChar (n % 10)]
decreasing_by exact Nat.div_lt_self (by omega) (by omega)

/-- Horner evaluation of a digit-character list, most significant first. -/
def digitsVal : List Char → Nat → Nat
  | [], acc => acc
  | c :: cs, acc => digitsVal cs (acc * 10 + charVal c)

/-- A well-formed IR instruction in the sense of the spec's data model: an
`Assign(target, integer-literal value)` or a `Call(callee, optional temporary
argument)` with one of the five callee names. -/
def WF (x : TACInstr) : Prop :=
  (x.op = "assign" ∧ x.arg2 = none ∧ x.result.isSome = true ∧
    x.arg.isSome = true ∧ x.arg.all (fun v => (pyInt? v).isSome) = true)
  ∨ (x.op = "call" ∧ x.result = none ∧
    x.arg ∈ ([some "move", some "jump", some "turn_left", some "turn_right", some "attack"] : List (Option String)))

instance (x : TACInstr) : Decidable (WF x) :=
  inferInstanceAs (Decidable ((x.op = "assign" ∧ x.arg2 = none ∧ x.result.isSome = true ∧
    x.arg.isSome = true ∧ x.arg.all (fun v => (pyInt? v).isSome) = true)
    ∨ (x.op = "call" ∧ x.result = none ∧
      x.arg ∈ ([some "move", some "jump", some "turn_left", some "turn_right", some "attack"] :
        List (Option String)))))

/-- The dead zero-argument pattern as the spec words it: `Assign(t, "0")`
immediately followed by `Call(move|jump, t)`, the same temporary `t`. -/
def specDeadPair (curr nxt : TACInstr) : Prop :=
  ∃ t, curr.op = "assign" ∧ curr.arg = some "0" ∧ curr.result = some t ∧
    nxt.op = "call" ∧ (nxt.arg = some "move" ∨ nxt.arg = some "jump") ∧ nxt.arg2 = some t

instance (curr nxt : TACInstr) : Decidable (specDeadPair curr nxt) :=
  decidable_of_iff
    (curr.op = "assign" ∧ curr.arg = some "0" ∧ curr.result.isSome = true ∧
      nxt.op = "call" ∧ (nxt.arg = some "move" ∨ nxt.arg = some "jump") ∧ nxt.arg2 = curr.result) <| by
    unfold specDeadPair
    constructor
    · rintro ⟨h1, h2, h3, h4, h5, h6⟩
      rcases Option.isSome_iff_exists.1 h3 with ⟨t, ht⟩
      exact ⟨t, h1, h2, ht, h4, h5, by rw [h6, ht]⟩
    · rintro ⟨t, h1, h2, ht, h4, h5, h6⟩
      exact ⟨h1, h2, by simp [ht], h4, h5, by rw [h6, ht]⟩

/-- The cancelling-turn pattern as the spec words it: `Call(turn_left)`
followed by `Call(turn_right)`, or symmetrically. -/
def specCancelPair (curr nxt : TACInstr) : Prop :=
  (curr.op = "call" ∧ curr.arg = some "turn_left" ∧ nxt.op = "call" ∧ nxt.arg = some "turn_right")
  ∨ (curr.op = "call" ∧ curr.arg = some "turn_right" ∧ nxt.op = "call" ∧ nxt.arg = some "turn_left")

instance (curr nxt : TACInstr) : Decidable (specCancelPair curr nxt) :=
  inferInstanceAs (Decidable
    ((curr.op = "call" ∧ curr.arg = some "turn_left" ∧ nxt.op = "call" ∧ nxt.arg = some "turn_right")
    ∨ (curr.op = "call" ∧ curr.arg = some "turn_right" ∧ nxt.op = "call" ∧ nxt.arg = some "turn_left")))

/-- The peephole pass exactly as the spec describes it (one forward sweep,
dead zero-argument elimination first, then turn cancellation, advancing by 2
past a dropped pair and by 1 past a kept instruction, never re-examining a
position).  Written from the spec's words, to be compared with
`optimize_tac`, which is written from the source. -/
def spec_sweep : List TACInstr → List TACInstr
  | [] => []
  | [curr] => [curr]
  | curr :: nxt :: rest =>
    if specDeadPair curr nxt then spec_sweep rest
    else if specCancelPair curr nxt then spec_sweep rest
    else curr :: spec_sweep (nxt :: rest)

/-- A `Call` whose callee is `move` or `jump`. -/
def IsMoveJumpCall (x : TACInstr) : Prop :=
  x.op = "call" ∧ (x.arg = some "move" ∨ x.arg = some "jump")

/-- Every `Call(move|jump)` carries a temporary assigned strictly earlier in
the same list. -/
def NoForwardRef (tac : List TACInstr) : Prop :=
  ∀ pre x post, tac = pre ++ x :: post → IsMoveJumpCall x →
    ∃ t, x.arg2 = some t ∧ ∃ a ∈ pre, a.op = "assign" ∧ a.result = some t

/-- The temporary names assigned in an instruction list, in order. -/
def temps (tac : List TACInstr) : List String :=
  tac.filterMap (fun x => if x.op = "assign" then x.result else none)

/-- Structure of the instruction lists `generate_tac` emits: a concatenation
of blocks — an `Assign`/`Call(move|jump)` pair over a fresh temporary `t k`
with strictly increasing `k` bounded below by `lb`, a lone turn call, or a
lone attack call. -/
inductive Blocky : Nat → List TACInstr → Prop where
  | nil (lb : Nat) : Blocky lb []
  | mj (lb k : Nat) (v c : String) (rest : List TACInstr) :
      lb ≤ k → (c = "move" ∨ c = "jump") →
      v ≠ "turn_left" → v ≠ "turn_right" →
      Blocky (k + 1) rest →
      Blocky lb (⟨"assign", some v, none, some (tname k)⟩ ::
                 ⟨"call", some c, some (tname k), none⟩ :: rest)
  | turn (lb : Nat) (c : String) (rest : List TACInstr) :
      (c = "turn_left" ∨ c = "turn_right") → Blocky lb rest →
      Blocky lb (⟨"call", some c, none, none⟩ :: rest)
  | atk (lb : Nat) (rest : List TACInstr) : Blocky lb rest →
      Blocky lb (⟨"call", some "attack", none, none⟩ :: rest)

/-- Shape of every statement `Parser.parse_stmt` can return. -/
def ShapeOK (s : Stmt) : Prop :=
  (s.kind = "MOVE" ∧ (∃ n, s.arg = some n) ∧ s.subkind = none)
  ∨ (s.kind = "JUMP" ∧ (∃ n, s.arg = some n) ∧ s.subkind = none)
  ∨ (s.kind = "TURN" ∧ s.arg = none ∧ (s.subkind = some "LEFT" ∨ s.subkind = some "RIGHT"))
  ∨ (s.kind = "ATTACK" ∧ s.arg = none ∧ s.subkind = none)

/-- IR generation exactly as the spec words it, one fixed expansion per
statement: `Move(n)` becomes `Assign(fresh, n); Call(move, fresh)`, `Jump(n)`
becomes `Assign(fresh, n); Call(jump, fresh)`, `Turn(Left)` becomes
`Call(turn_left)`, `Turn(Right)` becomes `Call(turn_right)`, `Attack` becomes
`Call(attack)`; fresh temporaries come from a monotonically increasing
counter.  Written from the spec's words, to be compared with `generate_tac`.
(Statements outside the four parser-producible kinds are skipped; none occur
in a parsed `Program`.) -/
def spec_expand : List Stmt → Nat → List TACInstr
  | [], _ => []
  | s :: rest, counter =>
    if s.kind = "MOVE" then
      ⟨"assign", some (pyStr s.arg), none, some (tname (counter + 1))⟩ ::
      ⟨"call", some "move", some (tname (counter + 1)), none⟩ :: spec_expand rest (counter + 1)
    else if s.kind = "JUMP" then
      ⟨"assign", some (pyStr s.arg), none, some (tname (counter + 1))⟩ ::
      ⟨"call", some "jump", some (tname (counter + 1)), none⟩ :: spec_expand rest (counter + 1)
    else if s.kind = "TURN" then
      (if s.subkind = some "LEFT" then (⟨"call", some "turn_left", none, none⟩ : TACInstr)
       else ⟨"call", some "turn_right", none, none⟩) :: spec_expand rest counter
    else if s.kind = "ATTACK" then
      ⟨"call", some "attack", none, none⟩ :: spec_expand rest counter
    else spec_expand rest counter

/-- Number of `Call` instructions in an instruction list. -/
def countCalls (tac : List TACInstr) : Nat :=
  (tac.filter (fun x => x.op == "call")).length

/-- A nonempty run of characters the lexer's digit predicate accepts (the
shape of every `NUMBER` token value the lexer emits). -/
def AllDigits (v : String) : Prop :=
  v.data ≠ [] ∧ ∀ c ∈ v.data, is_digit c = true

/-! ### Decimal-numeral facts

`Nat.repr` (which `toString` on `Nat`/`Int` and hence the temporary names
`f"t{tcount}"` and the value texts `str(s.arg)` go through) is proved
injective and all-digit via the transparent `digits10`. -/

theorem toDigitsCore_eq_digits10 (fuel : Nat) :
    ∀ n ds, n < fuel → Nat.toDigitsCore 10 fuel n ds = digits10 n ++ ds := by
  induction fuel with
  | zero => intro n ds h; omega
  | succ f ih =>
    intro n ds h
    rw [Nat.toDigitsCore]
    by_cases h10 : n / 10 = 0
    · have hn : n < 10 := by omega
      rw [if_pos h10, digits10, if_pos hn, Nat.mod_eq_of_lt hn]
      simp
    · have hn : ¬ n < 10 := by omega
      rw [if_neg h10, ih (n / 10) _ (by omega)]
      conv_rhs => rw [digits10, if_neg hn]
      simp

theorem repr_data (n : Nat) : (Nat.repr n).data = digits10 n := by
  show (Nat.toDigits 10 n).asString.data = _
  rw [Nat.toDigits, toDigitsCore_eq_digits10 (n + 1) n [] (by omega)]
  simp [List.asString]

theorem digitsVal_append (xs ys : List Char) :
    ∀ acc, digitsVal (xs ++ ys) acc = digitsVal ys (digitsVal xs acc) := by
  induction xs with
  | nil => intro acc; rfl
  | cons c cs ih => intro acc; simp [digitsVal, ih]

theorem charVal_digitChar (n : Nat) (h : n < 10) : charVal (Nat.digitChar n) = n := by
  interval_cases n <;> rfl

theorem digitChar_isDigit (n : Nat) (h : n < 10) : (Nat.digitChar n).isDigit = true := by
  interval_cases n <;> rfl

theorem digitsVal_digits10 (n : Nat) :
    ∀ acc, digitsVal (digits10 n) acc = acc * 10 ^ (digits10 n).length + n := by
  induction n using Nat.strong_induction_on with
  | _ n ih =>
    intro acc
    by_cases h : n < 10
    · rw [digits10, if_pos h]
      simp [digitsVal, charVal_digitChar n h]
    · rw [digits10, if_neg h, digitsVal_append,
        ih (n / 10) (Nat.div_lt_self (by omega) (by omega)) acc]
      simp only [digitsVal, charVal_digitChar (n % 10) (Nat.mod_lt n (by omega)),
        List.length_append, List.length_singleton]
      rw [pow_succ]
      have hA : acc * (10 ^ (digits10 (n / 10)).length * 10) =
          acc * 10 ^ (digits10 (n / 10)).length * 10 := by ring
      rw [hA]
      generalize acc * 10 ^ (digits10 (n / 10)).length = A
      omega

theorem digits10_inj {m n : Nat} (h : digits10 m = digits10 n) : m = n := by
  have h1 := digitsVal_digits10 m 0
  have h2 := digitsVal_digits10 n 0
  rw [h] at h1
  simp only [Nat.zero_mul, Nat.zero_add] at h1 h2
  omega

theorem digits10_all_digit (n : Nat) : ∀ c ∈ digits10 n, c.isDigit = true := by
  induction n using Nat.strong_induction_on with
  | _ n ih =>
    intro c hc
    by_cases h : n < 10
    · rw [digits10, if_pos h] at hc
      simp at hc
      exact hc ▸ digitChar_isDigit n h
    · rw [digits10, if_neg h] at hc
      rcases List.mem_append.1 hc with h1 | h1
      · exact ih (n / 10) (Nat.div_lt_self (by omega) (by omega)) c h1
      · simp at h1
        exact h1 ▸ digitChar_isDigit (n % 10) (Nat.mod_lt n (by omega))

theorem nat_repr_inj {m n : Nat} (h : Nat.repr m = Nat.repr n) : m = n :=
  digits10_inj (by rw [← repr_data, ← repr_data, h])

theorem tname_inj {j k : Nat} (h : tname j = tname k) : j = k := by
  unfold tname at h
  have hd := congrArg String.data h
  simp only [String.data_append] at hd
  have : (toString j).data = (toString k).data := by
    have : "t".data = ['t'] := rfl
    simp [this] at hd
    exact hd
  exact nat_repr_inj (by
    show Nat.repr j = Nat.repr k
    cases toString j with
    | _ => exact congrArg String.mk (by exact this))

/-- `str(i)` for an integer is never one of the turn callee names. -/
theorem pyStr_int_ne_turn (i : Int) :
    pyStr (some i) ≠ "turn_left" ∧ pyStr (some i) ≠ "turn_right" := by
  have key : ∀ m : Nat, ∀ s : String, s.data.head? = some 't' → Nat.repr m ≠ s := by
    intro m s hs h
    have hd := congrArg String.data h
    rw [repr_data] at hd
    have : 't' ∈ digits10 m := by
      rcases List.head?_eq_some_iff.1 (hd ▸ hs) with ⟨ys, hys⟩
      rw [hys]; exact List.mem_cons_self _ _
    have := digits10_all_digit m 't' this
    simp [Char.isDigit] at this
  constructor <;> (
    show toString i ≠ _
    cases i with
    | ofNat m => exact key m _ rfl
    | negSucc m =>
      intro h
      have hd := congrArg String.data h
      simp only [String.data_append] at hd
      exact absurd (List.head_eq_of_cons_eq hd) (by decide))

/-! ### Peephole optimizer: basic structure -/

/-- The optimizer only ever deletes: its output is a subsequence of its
input. -/
theorem optimize_tac_sublist (tac : List TACInstr) : (optimize_tac tac).Sublist tac := by
  induction tac using optimize_tac.induct with
  | case1 => simp [optimize_tac]
  | case2 curr => simp [optimize_tac]
  | case3 curr nxt rest h ih =>
    rw [optimize_tac, if_pos h]
    exact ih.trans ((List.sublist_cons_self _ _).trans (List.sublist_cons_self _ _))
  | case4 curr nxt rest h1 h2 ih =>
    rw [optimize_tac, if_neg h1, if_pos h2]
    exact ih.trans ((List.sublist_cons_self _ _).trans (List.sublist_cons_self _ _))
  | case5 curr nxt rest h1 h2 ih =>
    rw [optimize_tac, if_neg h1, if_neg h2]
    exact ih.cons₂ _

/-- On well-formed instructions the source's dead-code guard coincides with
the spec's `Assign(t, "0")` / `Call(move|jump, t)` pattern. -/
theorem dead_pair_iff_spec {curr nxt : TACInstr} (hc : WF curr) :
    dead_pair curr nxt ↔ specDeadPair curr nxt := by
  constructor
  · rintro ⟨h1, h2, h3, h4, h5⟩
    rcases hc with ⟨_, _, hres, _, _⟩ | ⟨hop, _, _⟩
    · rcases Option.isSome_iff_exists.1 hres with ⟨t, ht⟩
      exact ⟨t, h1, h2, ht, h3, h4, by rw [h5, ht]⟩
    · rw [h1] at hop; exact absurd hop (by decide)
  · rintro ⟨t, h1, h2, ht, h3, h4, h5⟩
    exact ⟨h1, h2, h3, h4, by rw [h5, ht]⟩

/-- On well-formed instructions the source's turn-cancellation guard (which
inspects only the `arg` fields) coincides with the spec's pattern of two
opposite `Call(turn_*)` instructions. -/
theorem cancel_pair_iff_spec {curr nxt : TACInstr} (hc : WF curr) (hn : WF nxt) :
    cancel_pair curr nxt ↔ specCancelPair curr nxt := by
  have call_of_turn : ∀ x : TACInstr, WF x →
      (x.arg = some "turn_left" ∨ x.arg = some "turn_right") → x.op = "call" := by
    rintro x (⟨_, _, _, _, hlit⟩ | ⟨hop, _, _⟩) hx
    · exfalso
      rcases hx with hx | hx <;> rw [hx] at hlit <;> exact absurd hlit (by decide)
    · exact hop
  constructor
  · rintro (⟨h1, h2⟩ | ⟨h1, h2⟩)
    · exact Or.inl ⟨call_of_turn curr hc (Or.inl h1), h1, call_of_turn nxt hn (Or.inr h2), h2⟩
    · exact Or.inr ⟨call_of_turn curr hc (Or.inr h1), h1, call_of_turn nxt hn (Or.inl h2), h2⟩
  · rintro (⟨_, h1, _, h2⟩ | ⟨_, h1, _, h2⟩)
    · exact Or.inl ⟨h1, h2⟩
    · exact Or.inr ⟨h1, h2⟩

/-- On lists of well-formed instructions the source's single sweep computes
exactly the spec's described sweep. -/
theorem optimize_tac_eq_spec_sweep :
    ∀ tac : List TACInstr, (∀ i ∈ tac, WF i) → optimize_tac tac = spec_sweep tac := by
  intro tac
  induction tac using optimize_tac.induct with
  | case1 => intro; rfl
  | case2 curr => intro; rfl
  | case3 curr nxt rest h ih =>
    intro hwf
    have hc := hwf curr (by simp)
    have hn := hwf nxt (by simp)
    rw [optimize_tac, if_pos h, spec_sweep, if_pos ((dead_pair_iff_spec hc).1 h)]
    exact ih fun i hi => hwf i (by simp [hi])
  | case4 curr nxt rest h1 h2 ih =>
    intro hwf
    have hc := hwf curr (by simp)
    have hn := hwf nxt (by simp)
    rw [optimize_tac, if_neg h1, if_pos h2, spec_sweep,
      if_neg (fun hs => h1 ((dead_pair_iff_spec hc).2 hs)),
      if_pos ((cancel_pair_iff_spec hc hn).1 h2)]
    exact ih fun i hi => hwf i (by simp [hi])
  | case5 curr nxt rest h1 h2 ih =>
    intro hwf
    have hc := hwf curr (by simp)
    have hn := hwf nxt (by simp)
    rw [optimize_tac, if_neg h1, if_neg h2, spec_sweep,
      if_neg (fun hs => h1 ((dead_pair_iff_spec hc).2 hs)),
      if_neg (fun hs => h2 ((cancel_pair_iff_spec hc hn).2 hs))]
    exact congrArg (curr :: ·) (ih fun i hi => hwf i (by simp [hi]))

/-- A head instruction that can trigger neither rule is kept and the sweep
moves on: neither an `assign "0"` head (rule 1 needs `curr.op == "assign"`
and `curr.arg == "0"`) nor a turn-argument head (rule 2 needs `curr.arg` to
be a turn name). -/
theorem optimize_keep_head {curr : TACInstr} (rest : List TACInstr)
    (h1 : ¬(curr.op = "assign" ∧ curr.arg = some "0"))
    (h2 : curr.arg ≠ some "turn_left") (h3 : curr.arg ≠ some "turn_right") :
    optimize_tac (curr :: rest) = curr :: optimize_tac rest := by
  cases rest with
  | nil => rfl
  | cons nxt rest' =>
    rw [optimize_tac, if_neg (fun hd => h1 ⟨hd.1, hd.2.1⟩),
      if_neg (fun hc => by rcases hc with ⟨ha, _⟩ | ⟨ha, _⟩; exacts [h2 ha, h3 ha])]

theorem blocky_mono : ∀ {lb tac}, Blocky lb tac → ∀ lb', lb' ≤ lb → Blocky lb' tac := by
  intro lb tac hb
  induction hb with
  | nil => exact fun lb' _ => .nil lb'
  | mj lb k v c rest hlk hc hv1 hv2 hrest _ =>
    exact fun lb' h => .mj lb' k v c rest (h.trans hlk) hc hv1 hv2 hrest
  | turn lb c rest hc _ ih => exact fun lb' h => .turn lb' c rest hc (ih lb' h)
  | atk lb rest _ ih => exact fun lb' h => .atk lb' rest (ih lb' h)

theorem optimize_blocky_aux :
    ∀ N tac lb, tac.length ≤ N → Blocky lb tac → Blocky lb (optimize_tac tac) := by
  intro N
  induction N with
  | zero =>
    intro tac lb hlen hb
    have : tac = [] := List.length_eq_zero.1 (Nat.le_antisymm hlen (Nat.zero_le _))
    subst this
    exact .nil _
  | succ N ih =>
    intro tac lb hlen hb
    cases hb with
    | nil => exact .nil _
    | mj lb k v c rest hlk hc hv1 hv2 hrest =>
      simp only [List.length_cons] at hlen
      by_cases hv0 : v = "0"
      · have hd : dead_pair ⟨"assign", some v, none, some (tname k)⟩
            ⟨"call", some c, some (tname k), none⟩ := by
          subst hv0
          exact ⟨rfl, rfl, rfl, by rcases hc with h | h <;> simp [h], rfl⟩
        rw [optimize_tac, if_pos hd]
        exact blocky_mono (ih rest (k + 1) (by omega) hrest) lb (by omega)
      · have hd : ¬ dead_pair ⟨"assign", some v, none, some (tname k)⟩
            ⟨"call", some c, some (tname k), none⟩ := by
          rintro ⟨_, ha, _⟩
          exact hv0 (Option.some.inj ha)
        have hcanc : ¬ cancel_pair ⟨"assign", some v, none, some (tname k)⟩
            ⟨"call", some c, some (tname k), none⟩ := by
          rintro (⟨ha, _⟩ | ⟨ha, _⟩)
          exacts [hv1 (Option.some.inj ha), hv2 (Option.some.inj ha)]
        rw [optimize_tac, if_neg hd, if_neg hcanc,
          optimize_keep_head rest (by rintro ⟨h, _⟩; simp at h)
            (by rcases hc with h | h <;> simp [h]) (by rcases hc with h | h <;> simp [h])]
        exact .mj lb k v c _ hlk hc hv1 hv2 (ih rest (k + 1) (by omega) hrest)
    | turn lb c rest hcturn hrest =>
      simp only [List.length_cons] at hlen
      cases hrest with
      | nil =>
        rw [optimize_tac]
        exact .turn _ _ _ hcturn (.nil _)
      | mj lb2 k v c2 rest2 hlk hc2 hv1 hv2 hrest2 =>
        have hd : ¬ dead_pair ⟨"call", some c, none, none⟩
            ⟨"assign", some v, none, some (tname k)⟩ := by
          rintro ⟨h, _⟩; simp at h
        have hcanc : ¬ cancel_pair ⟨"call", some c, none, none⟩
            ⟨"assign", some v, none, some (tname k)⟩ := by
          rintro (⟨_, ha⟩ | ⟨_, ha⟩)
          exacts [hv2 (Option.some.inj ha), hv1 (Option.some.inj ha)]
        simp only [List.length_cons] at hlen
        rw [optimize_tac, if_neg hd, if_neg hcanc]
        exact .turn _ _ _ hcturn
          (ih _ lb (by simp only [List.length_cons]; omega)
            (.mj lb k v c2 rest2 hlk hc2 hv1 hv2 hrest2))
      | turn lb2 c2 rest2 hc2 hrest2 =>
        have hd : ¬ dead_pair ⟨"call", some c, none, none⟩
            ⟨"call", some c2, none, none⟩ := by
          rintro ⟨h, _⟩; simp at h
        simp only [List.length_cons] at hlen
        by_cases hcc : cancel_pair ⟨"call", some c, none, none⟩ ⟨"call", some c2, none, none⟩
        · rw [optimize_tac, if_neg hd, if_pos hcc]
          exact ih rest2 lb (by omega) hrest2
        · rw [optimize_tac, if_neg hd, if_neg hcc]
          exact .turn _ _ _ hcturn (ih _ lb (by simp only [List.length_cons]; omega)
            (.turn lb c2 rest2 hc2 hrest2))
      | atk lb2 rest2 hrest2 =>
        have hd : ¬ dead_pair ⟨"call", some c, none, none⟩
            ⟨"call", some "attack", none, none⟩ := by
          rintro ⟨h, _⟩; simp at h
        have hcanc : ¬ cancel_pair ⟨"call", some c, none, none⟩
            ⟨"call", some "attack", none, none⟩ := by
          rintro (⟨_, ha⟩ | ⟨_, ha⟩) <;> simp at ha
        simp only [List.length_cons] at hlen
        rw [optimize_tac, if_neg hd, if_neg hcanc]
        exact .turn _ _ _ hcturn (ih _ lb (by simp only [List.length_cons]; omega)
          (.atk lb rest2 hrest2))
    | atk lb rest hrest =>
      simp only [List.length_cons] at hlen
      rw [optimize_keep_head rest (by rintro ⟨h, _⟩; simp at h)
        (by simp) (by simp)]
      exact .atk _ _ (ih rest lb (by omega) hrest)

/-- The optimizer preserves the block structure of generated TAC. -/
theorem optimize_blocky {lb : Nat} {tac : List TACInstr} (hb : Blocky lb tac) :
    Blocky lb (optimize_tac tac) :=
  optimize_blocky_aux tac.length tac lb le_rfl hb

/-- Block-structured TAC has no forward reference: every `Call(move|jump)`
is immediately preceded by the `Assign` of its temporary. -/
theorem blocky_noForwardRef : ∀ {lb tac}, Blocky lb tac → NoForwardRef tac := by
  intro lb tac hb
  induction hb with
  | nil =>
    intro pre x post h _
    exact absurd h (by simp)
  | mj lb k v c rest hlk hc hv1 hv2 hrest ih =>
    intro pre x post heq hx
    match pre, heq with
    | [], heq =>
      rw [List.nil_append] at heq
      obtain ⟨hxa, -⟩ := List.cons.inj heq
      rw [← hxa] at hx
      exact absurd hx.1 (by simp)
    | [a0], heq =>
      simp only [List.cons_append, List.nil_append] at heq
      obtain ⟨ha0, heq⟩ := List.cons.inj heq
      obtain ⟨hxb, -⟩ := List.cons.inj heq
      exact ⟨tname k, by rw [← hxb], a0, by simp, by rw [← ha0], by rw [← ha0]⟩
    | a0 :: a1 :: pre', heq =>
      simp only [List.cons_append] at heq
      obtain ⟨-, heq⟩ := List.cons.inj heq
      obtain ⟨-, heq⟩ := List.cons.inj heq
      obtain ⟨t, hxt, a, ha, haop, hares⟩ := ih pre' x post heq hx
      exact ⟨t, hxt, a, by simp [ha], haop, hares⟩
  | turn lb c rest hcturn hrest ih =>
    intro pre x post heq hx
    match pre, heq with
    | [], heq =>
      rw [List.nil_append] at heq
      obtain ⟨hxa, -⟩ := List.cons.inj heq
      rw [← hxa] at hx
      rcases hx.2 with h | h <;> rcases hcturn with h2 | h2 <;>
        (rw [h2] at h; exact absurd (Option.some.inj h) (by decide))
    | a0 :: pre', heq =>
      simp only [List.cons_append] at heq
      obtain ⟨-, heq⟩ := List.cons.inj heq
      obtain ⟨t, hxt, a, ha, haop, hares⟩ := ih pre' x post heq hx
      exact ⟨t, hxt, a, by simp [ha], haop, hares⟩
  | atk lb rest hrest ih =>
    intro pre x post heq hx
    match pre, heq with
    | [], heq =>
      rw [List.nil_append] at heq
      obtain ⟨hxa, -⟩ := List.cons.inj heq
      rw [← hxa] at hx
      rcases hx.2 with h | h <;> exact absurd (Option.some.inj h) (by decide)
    | a0 :: pre', heq =>
      simp only [List.cons_append] at heq
      obtain ⟨-, heq⟩ := List.cons.inj heq
      obtain ⟨t, hxt, a, ha, haop, hares⟩ := ih pre' x post heq hx
      exact ⟨t, hxt, a, by simp [ha], haop, hares⟩

/-- Block-structured TAC has pairwise-distinct temporary names, all of the
form `t k` with `k` at least the lower bound. -/
theorem blocky_temps : ∀ {lb tac}, Blocky lb tac →
    (temps tac).Nodup ∧ ∀ s ∈ temps tac, ∃ k, lb ≤ k ∧ s = tname k := by
  intro lb tac hb
  induction hb with
  | nil => exact ⟨List.nodup_nil, by simp [temps]⟩
  | mj lb k v c rest hlk hc hv1 hv2 hrest ih =>
    have htemps : temps (⟨"assign", some v, none, some (tname k)⟩ ::
        ⟨"call", some c, some (tname k), none⟩ :: rest) = tname k :: temps rest := by
      simp [temps]
    rw [htemps]
    refine ⟨List.nodup_cons.2 ⟨fun hmem => ?_, ih.1⟩, ?_⟩
    · obtain ⟨k', hk', hs⟩ := ih.2 _ hmem
      have : k = k' := tname_inj hs
      omega
    · intro s hs
      rcases List.mem_cons.1 hs with h | h
      · exact ⟨k, hlk, h⟩
      · obtain ⟨k', hk', hs'⟩ := ih.2 s h
        exact ⟨k', by omega, hs'⟩
  | turn lb c rest hcturn hrest ih =>
    have htemps : temps (⟨"call", some c, none, none⟩ :: rest) = temps rest := by
      simp [temps]
    rw [htemps]
    exact ih
  | atk lb rest hrest ih =>
    have htemps : temps (⟨"call", some "attack", none, none⟩ :: rest) = temps rest := by
      simp [temps]
    rw [htemps]
    exact ih

/-! ### Lexer and parser: shape of their outputs -/

theorem keywords_lookup_mem {w ty : String} (h : KEYWORDS.lookup w = some ty) :
    ty = "MOVE" ∨ ty = "TURN" ∨ ty = "LEFT" ∨ ty = "RIGHT" ∨ ty = "JUMP" ∨ ty = "ATTACK" := by
  obtain ⟨l1, l2, hl, -⟩ := List.lookup_eq_some_iff.1 h
  have hmem : (w, ty) ∈ KEYWORDS := hl ▸ List.mem_append.2 (Or.inr (List.mem_cons_self _ _))
  simp only [KEYWORDS, List.mem_cons, List.not_mem_nil, or_false, Prod.mk.injEq] at hmem
  rcases hmem with ⟨-, h⟩ | ⟨-, h⟩ | ⟨-, h⟩ | ⟨-, h⟩ | ⟨-, h⟩ | ⟨-, h⟩ <;> simp [h]

/-- Every `NUMBER` token `lex` emits carries a nonempty all-digit value. -/
theorem lexFrom_number_tokens :
    ∀ fuel cs i acc, (∀ t ∈ acc, t.type = "NUMBER" → AllDigits t.value) →
      ∀ ts, lexFrom fuel cs i acc = .ok ts → ∀ t ∈ ts, t.type = "NUMBER" → AllDigits t.value := by
  intro fuel cs i acc
  induction fuel, cs, i, acc using lexFrom.induct with
  | case1 cs i acc =>
    intro hacc ts h
    exact absurd h (by simp [lexFrom])
  | case2 fuel i acc =>
    intro hacc ts h t ht htype
    rw [lexFrom] at h
    obtain rfl := Except.ok.inj h
    rcases List.mem_append.1 ht with h1 | h1
    · exact hacc t (List.mem_reverse.1 h1) htype
    · simp only [List.mem_singleton] at h1
      rw [h1] at htype
      exact absurd htype (by simp at htype)
  | case3 fuel c cs i acc hws ih =>
    intro hacc ts h
    rw [lexFrom, if_pos hws] at h
    exact ih hacc ts h
  | case4 fuel cs i acc hnws ih =>
    intro hacc ts h
    rw [lexFrom, if_neg hnws, if_pos rfl] at h
    refine ih ?_ ts h
    intro t ht htype
    rcases List.mem_cons.1 ht with rfl | ht
    · simp at htype
    · exact hacc t ht htype
  | case5 fuel c cs i acc hnws hnsemi hdig ih =>
    intro hacc ts h
    rw [lexFrom, if_neg hnws, if_neg hnsemi, if_pos hdig] at h
    refine ih ?_ ts h
    intro t ht htype
    rcases List.mem_cons.1 ht with rfl | ht
    · refine ⟨by simp, ?_⟩
      intro ch hch
      rcases List.mem_cons.1 hch with rfl | hch
      · exact hdig
      · exact List.mem_takeWhile_imp hch
    · exact hacc t ht htype
  | case6 fuel c cs i acc hnws hnsemi hndig hletter ty hlook ih =>
    intro hacc ts h
    rw [lexFrom, if_neg hnws, if_neg hnsemi, if_neg hndig, if_pos hletter] at h
    rw [hlook] at h
    refine ih ?_ ts h
    intro t ht htype
    rcases List.mem_cons.1 ht with rfl | ht
    · rcases keywords_lookup_mem hlook with h' | h' | h' | h' | h' | h' <;>
        (rw [h'] at htype; simp at htype)
    · exact hacc t ht htype
  | case7 fuel c cs i acc hnws hnsemi hndig hletter hlook =>
    intro hacc ts h
    rw [lexFrom, if_neg hnws, if_neg hnsemi, if_neg hndig, if_pos hletter] at h
    rw [hlook] at h
    exact absurd h (by simp)
  | case8 fuel c cs i acc hnws hnsemi hndig hnletter =>
    intro hacc ts h
    rw [lexFrom, if_neg hnws, if_neg hnsemi, if_neg hndig, if_neg hnletter] at h
    exact absurd h (by simp)

theorem lex_number_tokens {text : String} {ts : List Token} (h : lex text = .ok ts) :
    ∀ t ∈ ts, t.type = "NUMBER" → AllDigits t.value :=
  lexFrom_number_tokens (text.data.length + 1) text.data 0 [] (by simp) ts h

/-- `int()` never returns a negative value on a string whose characters the
lexer's digit predicate accepts: such a string cannot start with a sign, so
the unsigned branch of `pyInt?` is taken. -/
theorem pyInt?_nonneg_of_digits {s : String} (h1 : s.data ≠ [])
    (h2 : ∀ c ∈ s.data, is_digit c = true) :
    ∀ v : Int, pyInt? s = some v → 0 ≤ v := by
  intro v hv
  rcases hd : s.data with - | ⟨c, cs⟩
  · exact absurd hd h1
  have hc : is_digit c = true := h2 c (hd ▸ List.mem_cons_self _ _)
  unfold pyInt? at hv
  rw [hd] at hv
  split at hv
  · next cs' heq =>
    obtain ⟨rfl, -⟩ := List.cons.inj heq
    exact absurd hc (by decide)
  · next cs' heq =>
    obtain ⟨rfl, -⟩ := List.cons.inj heq
    exact absurd hc (by decide)
  · next =>
    rcases hdec : decDigits? (c :: cs) with - | m <;> rw [hdec] at hv <;> simp at hv
    omega

theorem parse_stmt_shape (ts : List Token) (pr : Stmt × List Token)
    (h : parse_stmt ts = .ok pr) : ShapeOK pr.1 := by
  match ts with
  | [] => exact absurd h (by simp [parse_stmt])
  | tok :: ts2 =>
    simp only [parse_stmt] at h
    repeat' split at h
    all_goals first
      | (obtain rfl := Except.ok.inj h; simp_all [ShapeOK])
      | exact absurd h (by simp)

theorem parse_stmts_shape :
    ∀ fuel ts ss, parse_stmts fuel ts = .ok ss → ∀ s ∈ ss, ShapeOK s := by
  intro fuel
  induction fuel with
  | zero => intro ts ss h; exact absurd h (by simp [parse_stmts])
  | succ f ih =>
    intro ts ss h
    rcases ts with - | ⟨t, ts'⟩
    all_goals simp only [parse_stmts] at h
    · exact absurd h (by simp)
    · by_cases he : t.type = "EOF"
      · rw [if_pos he] at h
        obtain rfl := Except.ok.inj h
        intro s hs
        exact absurd hs (by simp)
      · rw [if_neg he] at h
        split at h
        · exact absurd h (by simp)
        · next st rest hst =>
          split at h
          · exact absurd h (by simp)
          · next ss2 hss2 =>
            obtain rfl := Except.ok.inj h
            intro s hs
            rcases List.mem_cons.1 hs with rfl | hs
            · exact parse_stmt_shape _ _ hst
            · exact ih rest ss2 hss2 s hs

theorem parse_shape {ts : List Token} {p : Program} (h : parse ts = .ok p) :
    ∀ s ∈ p.statements, ShapeOK s := by
  unfold parse at h
  rcases hps : parse_stmts ts.length ts with e | ss <;> rw [hps] at h
  · exact absurd h (by simp [Except.map])
  · obtain rfl := Except.ok.inj h
    exact parse_stmts_shape _ _ _ hps

/-- The remaining-token list `parse_stmt` returns is a suffix (hence
sublist) of its input. -/
theorem parse_stmt_rest_sublist (ts : List Token) (pr : Stmt × List Token)
    (h : parse_stmt ts = .ok pr) : pr.2.Sublist ts := by
  match ts with
  | [] => exact absurd h (by simp [parse_stmt])
  | tok :: ts2 =>
    simp only [parse_stmt] at h
    repeat' split at h
    all_goals first
      | (obtain rfl := Except.ok.inj h
         first
           | exact (List.sublist_cons_self _ _).trans
               ((List.sublist_cons_self _ _).trans (List.sublist_cons_self _ _))
           | exact (List.sublist_cons_self _ _).trans (List.sublist_cons_self _ _))
      | exact absurd h (by simp)

/-- When every `NUMBER` token carries an all-digit value (as `lex`
guarantees), every `MOVE`/`JUMP` statement the parser builds has a
nonnegative argument. -/
theorem parse_stmt_nonneg (ts : List Token) (pr : Stmt × List Token)
    (h : parse_stmt ts = .ok pr)
    (hnum : ∀ t ∈ ts, t.type = "NUMBER" → AllDigits t.value) :
    (pr.1.kind = "MOVE" ∨ pr.1.kind = "JUMP") → ∃ n : Int, pr.1.arg = some n ∧ 0 ≤ n := by
  have key : ∀ (numval : String), AllDigits numval →
      ∀ v : Int, pyInt? numval = some v → 0 ≤ v := by
    intro numval ⟨hne, hdig⟩ v hv
    exact pyInt?_nonneg_of_digits hne hdig v hv
  match ts with
  | [] => exact absurd h (by simp [parse_stmt])
  | tok :: ts2 =>
    simp only [parse_stmt] at h
    repeat' split at h
    all_goals first
      | (obtain rfl := Except.ok.inj h
         intro hk
         first
           | (rename_i num hnumty _ _ _ _ _ v hpy
              exact ⟨v, rfl, key num.value (hnum num (by simp) hnumty) v hpy⟩)
           | (rcases hk with hk | hk <;> exact absurd hk (by simp)))
      | exact absurd h (by simp)

theorem parse_stmts_nonneg :
    ∀ fuel ts ss, parse_stmts fuel ts = .ok ss →
      (∀ t ∈ ts, t.type = "NUMBER" → AllDigits t.value) →
      ∀ s ∈ ss, (s.kind = "MOVE" ∨ s.kind = "JUMP") → ∃ n : Int, s.arg = some n ∧ 0 ≤ n := by
  intro fuel
  induction fuel with
  | zero => intro ts ss h; exact absurd h (by simp [parse_stmts])
  | succ f ih =>
    intro ts ss h hnum
    rcases ts with - | ⟨t, ts'⟩
    all_goals simp only [parse_stmts] at h
    · exact absurd h (by simp)
    · by_cases he : t.type = "EOF"
      · rw [if_pos he] at h
        obtain rfl := Except.ok.inj h
        intro s hs
        exact absurd hs (by simp)
      · rw [if_neg he] at h
        split at h
        · exact absurd h (by simp)
        · next st rest hst =>
          split at h
          · exact absurd h (by simp)
          · next ss2 hss2 =>
            obtain rfl := Except.ok.inj h
            intro s hs
            rcases List.mem_cons.1 hs with rfl | hs
            · exact parse_stmt_nonneg _ _ hst hnum
            · refine ih rest ss2 hss2 ?_ s hs
              intro t' ht' htype'
              have hsub : rest.Sublist (t :: ts') := parse_stmt_rest_sublist _ (st, rest) hst
              exact hnum t' (hsub.subset ht') htype'

theorem parse_nonneg {ts : List Token} {p : Program} (h : parse ts = .ok p)
    (hnum : ∀ t ∈ ts, t.type = "NUMBER" → AllDigits t.value) :
    ∀ s ∈ p.statements, (s.kind = "MOVE" ∨ s.kind = "JUMP") →
      ∃ n : Int, s.arg = some n ∧ 0 ≤ n := by
  unfold parse at h
  rcases hps : parse_stmts ts.length ts with e | ss <;> rw [hps] at h
  · exact absurd h (by simp [Except.map])
  · obtain rfl := Except.ok.inj h
    exact parse_stmts_nonneg _ _ _ hps hnum

/-! ### Semantic checker -/

theorem semantic_check_stmt_ok (s : Stmt) (hs : ShapeOK s)
    (hnn : (s.kind = "MOVE" ∨ s.kind = "JUMP") → ∃ n : Int, s.arg = some n ∧ 0 ≤ n) :
    semantic_check_stmt s = .ok () := by
  rcases hs with ⟨hk, -, -⟩ | ⟨hk, -, -⟩ | ⟨hk, -, hsub⟩ | ⟨hk, -, hsub⟩
  · obtain ⟨n, ha, hn⟩ := hnn (Or.inl hk)
    simp [semantic_check_stmt, hk, ha, not_lt.2 hn]
    rfl
  · obtain ⟨n, ha, hn⟩ := hnn (Or.inr hk)
    simp [semantic_check_stmt, hk, ha, not_lt.2 hn]
    rfl
  · rcases hsub with hd | hd <;> (simp [semantic_check_stmt, hk, hd]; rfl)
  · simp [semantic_check_stmt, hk]
    rfl

theorem semantic_check_ok (p : Program)
    (h : ∀ s ∈ p.statements, semantic_check_stmt s = .ok ()) :
    semantic_check p = .ok () := by
  obtain ⟨ss⟩ := p
  unfold semantic_check
  simp only
  induction ss with
  | nil => rfl
  | cons s rest ih =>
    rw [List.foldlM_cons, h s (by simp)]
    exact ih (fun s' hs' => h s' (by simp [hs']))

/-! ### IR generation -/

theorem gen_blocky :
    ∀ (stmts : List Stmt) (n : Nat), (∀ s ∈ stmts, ShapeOK s) →
      ∃ tac, generate_tac_aux stmts n = .ok tac ∧ Blocky (n + 1) tac := by
  intro stmts
  induction stmts with
  | nil => exact fun n _ => ⟨[], rfl, .nil _⟩
  | cons s rest ih =>
    intro n hs
    rcases hs s (by simp) with ⟨hk, ⟨m, ha⟩, -⟩ | ⟨hk, ⟨m, ha⟩, -⟩ | ⟨hk, -, hsub⟩ | ⟨hk, -, -⟩
    · obtain ⟨tac', htac', hb'⟩ := ih (n + 1) (fun s' hs' => hs s' (by simp [hs']))
      refine ⟨⟨"assign", some (pyStr s.arg), none, some (tname (n + 1))⟩ ::
              ⟨"call", some "move", some (tname (n + 1)), none⟩ :: tac', ?_, ?_⟩
      · simp only [generate_tac_aux]
        rw [if_pos hk, htac']
      · rw [ha]
        exact .mj (n + 1) (n + 1) _ "move" tac' le_rfl (Or.inl rfl)
          (pyStr_int_ne_turn m).1 (pyStr_int_ne_turn m).2 hb'
    · obtain ⟨tac', htac', hb'⟩ := ih (n + 1) (fun s' hs' => hs s' (by simp [hs']))
      refine ⟨⟨"assign", some (pyStr s.arg), none, some (tname (n + 1))⟩ ::
              ⟨"call", some "jump", some (tname (n + 1)), none⟩ :: tac', ?_, ?_⟩
      · simp only [generate_tac_aux]
        rw [if_neg (by simp [hk]), if_pos hk, htac']
      · rw [ha]
        exact .mj (n + 1) (n + 1) _ "jump" tac' le_rfl (Or.inr rfl)
          (pyStr_int_ne_turn m).1 (pyStr_int_ne_turn m).2 hb'
    · obtain ⟨tac', htac', hb'⟩ := ih n (fun s' hs' => hs s' (by simp [hs']))
      rcases hsub with hd | hd
      · refine ⟨⟨"call", some ("turn_" ++ str_lower "LEFT"), none, none⟩ :: tac', ?_, ?_⟩
        · simp only [generate_tac_aux]
          rw [if_neg (by simp [hk]), if_neg (by simp [hk]), if_pos hk, hd]
          simp [htac']
        · exact .turn _ _ _ (Or.inl (by decide)) hb'
      · refine ⟨⟨"call", some ("turn_" ++ str_lower "RIGHT"), none, none⟩ :: tac', ?_, ?_⟩
        · simp only [generate_tac_aux]
          rw [if_neg (by simp [hk]), if_neg (by simp [hk]), if_pos hk, hd]
          simp [htac']
        · exact .turn _ _ _ (Or.inr (by decide)) hb'
    · obtain ⟨tac', htac', hb'⟩ := ih n (fun s' hs' => hs s' (by simp [hs']))
      refine ⟨⟨"call", some "attack", none, none⟩ :: tac', ?_, ?_⟩
      · simp only [generate_tac_aux]
        rw [if_neg (by simp [hk]), if_neg (by simp [hk]), if_neg (by simp [hk]),
          if_pos hk, htac']
      · exact .atk _ _ hb'

/-- `f"turn_{direction.lower()}"` for the two parser directions. -/
theorem turn_left_name : ("turn_" ++ str_lower "LEFT" : String) = "turn_left" := by decide

theorem turn_right_name : ("turn_" ++ str_lower "RIGHT" : String) = "turn_right" := by decide

/-- On parser-shaped statement lists, `generate_tac_aux` computes exactly
the spec's per-statement expansion. -/
theorem gen_eq_spec_expand :
    ∀ (stmts : List Stmt) (n : Nat), (∀ s ∈ stmts, ShapeOK s) →
      generate_tac_aux stmts n = .ok (spec_expand stmts n) := by
  intro stmts
  induction stmts with
  | nil => intro n _; rfl
  | cons s rest ih =>
    intro n hs
    have ihrest : ∀ m, generate_tac_aux rest m = .ok (spec_expand rest m) :=
      fun m => ih m (fun s' hs' => hs s' (by simp [hs']))
    rcases hs s (by simp) with ⟨hk, -, -⟩ | ⟨hk, -, -⟩ | ⟨hk, -, hsub⟩ | ⟨hk, -, -⟩
    · simp [generate_tac_aux, spec_expand, hk, ihrest]
    · simp [generate_tac_aux, spec_expand, hk, ihrest]
    · rcases hsub with hd | hd <;>
        simp [generate_tac_aux, spec_expand, hk, hd, ihrest, turn_left_name, turn_right_name]
    · simp [generate_tac_aux, spec_expand, hk, ihrest]

/-- The spec expansion emits exactly one `Call` per statement. -/
theorem spec_expand_countCalls :
    ∀ (stmts : List Stmt) (n : Nat), (∀ s ∈ stmts, ShapeOK s) →
      countCalls (spec_expand stmts n) = stmts.length := by
  intro stmts
  induction stmts with
  | nil => intro n _; rfl
  | cons s rest ih =>
    intro n hs
    have ihrest : ∀ m, countCalls (spec_expand rest m) = rest.length :=
      fun m => ih m (fun s' hs' => hs s' (by simp [hs']))
    rcases hs s (by simp) with ⟨hk, -, -⟩ | ⟨hk, -, -⟩ | ⟨hk, -, hsub⟩ | ⟨hk, -, -⟩
    · simp only [spec_expand]
      rw [if_pos hk]
      simp [countCalls] at ihrest ⊢
      exact ihrest (n + 1)
    · simp only [spec_expand]
      rw [if_neg (by simp [hk]), if_pos hk]
      simp [countCalls] at ihrest ⊢
      exact ihrest (n + 1)
    · simp only [spec_expand]
      rw [if_neg (by simp [hk]), if_neg (by simp [hk]), if_pos hk]
      rcases hsub with hd | hd <;> rw [hd] <;>
        (simp [countCalls] at ihrest ⊢
         exact ihrest n)
    · simp only [spec_expand]
      rw [if_neg (by simp [hk]), if_neg (by simp [hk]), if_neg (by simp [hk]), if_pos hk]
      simp [countCalls] at ihrest ⊢
      exact ihrest n

/-! ### Lexer error classification helpers -/

/-- A letter is not whitespace, not a semicolon, and not a digit, so the
scan falls through to the identifier branch. -/
theorem is_letter_not_reserved {c : Char} (h : is_letter c = true) :
    ¬(c = ' ' ∨ c = '\t' ∨ c = '\r' ∨ c = '\n') ∧ c ≠ ';' ∧ is_digit c = false := by
  refine ⟨?_, ?_, ?_⟩
  · rintro (rfl | rfl | rfl | rfl) <;> exact absurd h (by decide)
  · rintro rfl; exact absurd h (by decide)
  · simp only [is_letter, decide_eq_true_eq] at h
    simp only [is_digit, decide_eq_false_iff_not]
    omega

theorem takeWhile_all_append (p : Char → Bool) (xs ys : List Char)
    (hxs : ∀ c ∈ xs, p c = true) (hys : ∀ c, ys.head? = some c → p c = false) :
    (xs ++ ys).takeWhile p = xs ∧ (xs ++ ys).dropWhile p = ys := by
  induction xs with
  | nil =>
    simp only [List.nil_append]
    cases ys with
    | nil => exact ⟨rfl, rfl⟩
    | cons y ys' =>
      have hy := hys y rfl
      exact ⟨by simp [List.takeWhile_cons, hy], by simp [List.dropWhile_cons, hy]⟩
  | cons x xs' ih =>
    have hx := hxs x (by simp)
    obtain ⟨h1, h2⟩ := ih (fun c hc => hxs c (by simp [hc]))
    exact ⟨by simp [List.takeWhile_cons, hx, h1], by simp [List.dropWhile_cons, hx, h2]⟩

/-- When the scan stands at a maximal letter run whose lower-casing is not a
keyword, `lex` fails with `UnknownIdentifier` carrying that (lower-cased)
word and the run's starting offset. -/
theorem lexFrom_unknown_word (fuel : Nat) (letters rest : List Char) (i : Nat)
    (acc : List Token)
    (hne : letters ≠ []) (hall : ∀ c ∈ letters, is_letter c = true)
    (hrest : ∀ c, rest.head? = some c → is_letter c = false)
    (hlook : KEYWORDS.lookup (str_lower (String.mk letters)) = none) :
    lexFrom (fuel + 1) (letters ++ rest) i acc =
      .error (.lexUnknownIdentifier (str_lower (String.mk letters)) i) := by
  rcases letters with - | ⟨c, ls⟩
  · exact absurd rfl hne
  have hc := hall c (by simp)
  obtain ⟨hnws, hnsemi, hndig⟩ := is_letter_not_reserved hc
  obtain ⟨htw, -⟩ := takeWhile_all_append is_letter ls rest
    (fun c' hc' => hall c' (by simp [hc'])) hrest
  rw [List.cons_append, lexFrom, if_neg hnws, if_neg hnsemi,
    if_neg (by simp [hndig]), if_pos hc, htw, hlook]

/-! ## The claims -/

/-- **C1**: for every (well-formed, per the data model) instruction list the
peephole optimizer performs exactly one left-to-right sweep — at position `i`
it first drops an `Assign(t, "0")` / `Call(move|jump, t)` pair and advances
by 2, otherwise drops an adjacent opposite-direction turn-call pair and
advances by 2, otherwise keeps the instruction and advances by 1, never
re-examining a position (`spec_sweep` is that sweep verbatim) — and in
particular the two same-direction turn calls compiled from
`"turn left; turn left;"` both survive optimization. -/
theorem C1_optimizer_single_sweep (tac : List TACInstr) (hwf : ∀ i ∈ tac, WF i) :
    optimize_tac tac = spec_sweep tac ∧
    compile_opt_tac "turn left; turn left;" =
      .ok [⟨"call", some "turn_left", none, none⟩, ⟨"call", some "turn_left", none, none⟩] :=
  ⟨optimize_tac_eq_spec_sweep tac hwf, by decide⟩

theorem C1_optimizer_single_sweep_witness :
    optimize_tac
        [⟨"assign", some "0", none, some "t1"⟩, ⟨"call", some "move", some "t1", none⟩,
         ⟨"call", some "turn_left", none, none⟩, ⟨"call", some "turn_left", none, none⟩] =
      spec_sweep
        [⟨"assign", some "0", none, some "t1"⟩, ⟨"call", some "move", some "t1", none⟩,
         ⟨"call", some "turn_left", none, none⟩, ⟨"call", some "turn_left", none, none⟩] ∧
    compile_opt_tac "turn left; turn left;" =
      .ok [⟨"call", some "turn_left", none, none⟩, ⟨"call", some "turn_left", none, none⟩] :=
  C1_optimizer_single_sweep
    [⟨"assign", some "0", none, some "t1"⟩, ⟨"call", some "move", some "t1", none⟩,
     ⟨"call", some "turn_left", none, none⟩, ⟨"call", some "turn_left", none, none⟩]
    (by decide)

/-- **C2**: for every `Program` a successful parse produces, the generated
instruction list has no forward reference (every `Call(move|jump)` names a
temporary assigned strictly earlier) and pairwise-distinct temporary names,
and both properties still hold of the optimized list fed to the
interpreter. -/
theorem C2_ir_invariants (ts : List Token) (p : Program) (tac : List TACInstr)
    (hp : parse ts = .ok p) (hg : generate_tac p = .ok tac) :
    NoForwardRef tac ∧ (temps tac).Nodup ∧
    NoForwardRef (optimize_tac tac) ∧ (temps (optimize_tac tac)).Nodup := by
  have hshape := parse_shape hp
  obtain ⟨tac', htac', hb⟩ := gen_blocky p.statements 0 hshape
  rw [generate_tac, htac'] at hg
  obtain rfl := Except.ok.inj hg
  have hb2 := optimize_blocky hb
  exact ⟨blocky_noForwardRef hb, (blocky_temps hb).1,
    blocky_noForwardRef hb2, (blocky_temps hb2).1⟩

theorem C2_ir_invariants_witness :
    NoForwardRef [⟨"assign", some "1", none, some "t1"⟩, ⟨"call", some "move", some "t1", none⟩] ∧
    (temps [⟨"assign", some "1", none, some "t1"⟩, ⟨"call", some "move", some "t1", none⟩]).Nodup ∧
    NoForwardRef (optimize_tac
      [⟨"assign", some "1", none, some "t1"⟩, ⟨"call", some "move", some "t1", none⟩]) ∧
    (temps (optimize_tac
      [⟨"assign", some "1", none, some "t1"⟩, ⟨"call", some "move", some "t1", none⟩])).Nodup :=
  C2_ir_invariants
    [⟨"MOVE", "move", 0⟩, ⟨"NUMBER", "1", 5⟩, ⟨"SEMICOLON", ";", 6⟩, ⟨"EOF", "", 7⟩]
    ⟨[⟨"MOVE", some 1, none, 0⟩]⟩
    [⟨"assign", some "1", none, some "t1"⟩, ⟨"call", some "move", some "t1", none⟩]
    (by decide) (by decide)

/-- **C3 (counterexample)**: the claim says the optimized instruction list
for `"turn left; turn right; move 5;"` consists of the single `Call(move)`;
in fact it has two instructions — the `Assign` of the temporary survives
together with the `Call`. -/
theorem C3_single_call_counterexample :
    compile_opt_tac "turn left; turn right; move 5;" =
      .ok [⟨"assign", some "5", none, some "t1"⟩, ⟨"call", some "move", some "t1", none⟩] ∧
    Except.map List.length (compile_opt_tac "turn left; turn right; move 5;") ≠
      Except.ok 1 := by decide

/-- **C3 (amended)**: `"turn left; turn right; move 5;"` optimizes to the
two-instruction list `Assign(t1, "5"); Call(move, t1)` — the cancelling turn
pair is eliminated and the only remaining `Call` is the move — and
interpreting the optimized list emits exactly one `MOVE` action with
payload 5. -/
theorem C3_single_call_amended :
    compile_opt_tac "turn left; turn right; move 5;" =
      .ok [⟨"assign", some "5", none, some "t1"⟩, ⟨"call", some "move", some "t1", none⟩] ∧
    compile_and_run "turn left; turn right; move 5;" = .ok [Action.MOVE (some 5)] := by decide

/-- **C4**: for every parsed and semantically validated `Program`, IR
generation succeeds (is total) and equals the spec's fixed per-statement
expansion with a threaded fresh-temporary counter, so the number of `Call`
instructions in the pre-optimization list equals the number of
statements. -/
theorem C4_ir_expansion (ts : List Token) (p : Program)
    (hp : parse ts = .ok p) (_hsem : semantic_check p = .ok ()) :
    generate_tac p = .ok (spec_expand p.statements 0) ∧
    countCalls (spec_expand p.statements 0) = p.statements.length := by
  have hshape := parse_shape hp
  exact ⟨by rw [generate_tac]; exact gen_eq_spec_expand p.statements 0 hshape,
    spec_expand_countCalls p.statements 0 hshape⟩

theorem C4_ir_expansion_witness :
    generate_tac ⟨[⟨"MOVE", some 1, none, 0⟩]⟩ =
      .ok (spec_expand [⟨"MOVE", some 1, none, 0⟩] 0) ∧
    countCalls (spec_expand [⟨"MOVE", some 1, none, 0⟩] 0) = 1 :=
  C4_ir_expansion
    [⟨"MOVE", "move", 0⟩, ⟨"NUMBER", "1", 5⟩, ⟨"SEMICOLON", ";", 6⟩, ⟨"EOF", "", 7⟩]
    ⟨[⟨"MOVE", some 1, none, 0⟩]⟩ (by decide) (by decide)

/-- **C5 (counterexample)**: the claim classifies by *ASCII* letters and
digits, but the source uses Python's Unicode-aware `str.isalpha` /
`str.isdigit`.  `'é'` is not an ASCII letter, so the claim predicts
`UnexpectedCharacter` on `"é;"`; the code takes the identifier branch and
fails with `UnknownIdentifier 'é'` instead.  `'²'` is not an ASCII digit,
yet `"²;"` lexes successfully as a `NUMBER` token.  And on `"aé;"` the
maximal *ASCII* letter run is `"a"`, but the code's error carries the whole
isalpha-run `"aé"`. -/
theorem C5_lexer_error_classification_counterexample :
    lex "é;" = .error (.lexUnknownIdentifier "é" 0) ∧
    ¬ lex "é;" = .error (.lexUnexpectedCharacter 'é' 0) ∧
    lex "²;" = .ok [⟨"NUMBER", "²", 0⟩, ⟨"SEMICOLON", ";", 1⟩, ⟨"EOF", "", 2⟩] ∧
    lex "aé;" = .error (.lexUnknownIdentifier "aé" 0) ∧
    ¬ lex "aé;" = .error (.lexUnknownIdentifier "a" 0) := by decide

/-- **C5 (amended)**: the lexer classifies by Python's `str.isalpha` /
`str.isdigit`, not by ASCII (here stated on the ASCII+Latin-1 range, where
the embedding models those classes exactly): a maximal run of
isalpha-letters whose lower-casing is not in the keyword table fails with
`UnknownIdentifier` carrying the lower-cased word and the run's starting
offset (`"foo;"` fails at offset 0, and so does the non-ASCII `"é;"`), and
a character that is not whitespace, a semicolon, an isalpha-letter or an
isdigit-digit fails with `UnexpectedCharacter` carrying that character and
its offset; isdigit characters such as `'²'` are tokenized as `NUMBER`, not
rejected. -/
theorem C5_lexer_error_classification :
    (∀ (fuel : Nat) (letters rest : List Char) (i : Nat) (acc : List Token),
      letters ≠ [] → (∀ c ∈ letters, is_letter c = true) →
      (∀ c, rest.head? = some c → c.toNat < 0x100 ∧ is_letter c = false) →
      KEYWORDS.lookup (str_lower (String.mk letters)) = none →
      lexFrom (fuel + 1) (letters ++ rest) i acc =
        .error (.lexUnknownIdentifier (str_lower (String.mk letters)) i))
    ∧ (∀ (fuel : Nat) (c : Char) (cs : List Char) (i : Nat) (acc : List Token),
      c.toNat < 0x100 →
      ¬(c = ' ' ∨ c = '\t' ∨ c = '\r' ∨ c = '\n') → c ≠ ';' →
      is_digit c = false → is_letter c = false →
      lexFrom (fuel + 1) (c :: cs) i acc = .error (.lexUnexpectedCharacter c i))
    ∧ lex "foo;" = .error (.lexUnknownIdentifier "foo" 0)
    ∧ lex "é;" = .error (.lexUnknownIdentifier "é" 0)
    ∧ lex "²;" = .ok [⟨"NUMBER", "²", 0⟩, ⟨"SEMICOLON", ";", 1⟩, ⟨"EOF", "", 2⟩] := by
  refine ⟨?_, ?_, by decide, by decide, by decide⟩
  · intro fuel letters rest i acc hne hall hrest hlook
    exact lexFrom_unknown_word fuel letters rest i acc hne hall
      (fun c hc => (hrest c hc).2) hlook
  · intro fuel c cs i acc _ hnws hnsemi hndig hnletter
    rw [lexFrom, if_neg hnws, if_neg hnsemi, if_neg (by simp [hndig]),
      if_neg (by simp [hnletter])]

theorem C5_lexer_error_classification_witness :
    lexFrom 5 (['b', 'a', 'r'] ++ [';']) 0 [] =
      .error (.lexUnknownIdentifier (str_lower (String.mk ['b', 'a', 'r'])) 0) ∧
    lexFrom 2 ['?'] 3 [] = .error (.lexUnexpectedCharacter '?' 3) :=
  ⟨C5_lexer_error_classification.1 4 ['b', 'a', 'r'] [';'] 0 []
      (by decide) (by decide) (by decide) (by decide),
    C5_lexer_error_classification.2.1 1 '?' [] 3 []
      (by decide) (by decide) (by decide) (by decide) (by decide)⟩

/-- **C6 (counterexample)**: the claim says executing `Call(move)` with an
unbound temporary fails; in fact `env.get` returns `None` and the
interpreter happily emits a `MOVE` action with payload `None`. -/
theorem C6_interpreter_error_counterexample :
    exec_TAC [⟨"call", some "move", some "t1", none⟩] = .ok [Action.MOVE none] := by decide

/-- **C6 (amended)**: executing a `Call` whose callee is not one of `move`,
`jump`, `turn_left`, `turn_right`, `attack` fails with a `RuntimeError`;
executing `Call(move|jump)` whose temporary has no binding does **not**
fail — the missing lookup yields `None` and the interpreter emits a
`MOVE`/`JUMP` action with payload `None`. -/
theorem C6_interpreter_error_amended :
    (∀ (env : List (Option String × Int)) (acc : List Action) (f : Option String)
        (a2 r : Option String) (rest : List TACInstr),
      f ∉ ([some "move", some "jump", some "turn_left", some "turn_right", some "attack"] :
            List (Option String)) →
      exec_aux env acc (⟨"call", f, a2, r⟩ :: rest) =
        .error (.runtimeError ("Unknown call " ++ pyStrS f)))
    ∧ (∀ (env : List (Option String × Int)) (acc : List Action) (t : String)
        (r : Option String) (rest : List TACInstr),
      t ≠ "" → env.lookup (some t) = none →
      exec_aux env acc (⟨"call", some "move", some t, r⟩ :: rest) =
        exec_aux env (Action.MOVE none :: acc) rest)
    ∧ (∀ (env : List (Option String × Int)) (acc : List Action) (t : String)
        (r : Option String) (rest : List TACInstr),
      t ≠ "" → env.lookup (some t) = none →
      exec_aux env acc (⟨"call", some "jump", some t, r⟩ :: rest) =
        exec_aux env (Action.JUMP none :: acc) rest) := by
  refine ⟨?_, ?_, ?_⟩
  · intro env acc f a2 r rest hf
    simp only [List.mem_cons, List.not_mem_nil, or_false, not_or] at hf
    obtain ⟨h1, h2, h3, h4, h5⟩ := hf
    rw [exec_aux]
    simp [h1, h2, h3, h4, h5]
  · intro env acc t r rest ht henv
    rw [exec_aux]
    simp [ht, henv]
  · intro env acc t r rest ht henv
    rw [exec_aux]
    simp [ht, henv]

theorem C6_interpreter_error_amended_witness :
    exec_aux [] [] [⟨"call", some "frob", none, none⟩] =
      .error (.runtimeError ("Unknown call " ++ pyStrS (some "frob"))) ∧
    exec_aux [] [] [⟨"call", some "move", some "t9", none⟩] =
      exec_aux [] [Action.MOVE none] [] ∧
    exec_aux [] [] [⟨"call", some "jump", some "t9", none⟩] =
      exec_aux [] [Action.JUMP none] [] :=
  ⟨C6_interpreter_error_amended.1 [] [] (some "frob") none none [] (by decide),
    C6_interpreter_error_amended.2.1 [] [] "t9" none [] (by decide) (by decide),
    C6_interpreter_error_amended.2.2 [] [] "t9" none [] (by decide) (by decide)⟩

/-- **C7**: an instruction list (of well-formed instructions) with no
adjacent pair matching either rewrite rule — no `Assign(t, "0")` followed by
`Call(move|jump, t)` and no adjacent opposite-direction turn calls — is
returned unchanged by the optimizer, hence a second pass changes nothing. -/
theorem C7_optimize_fixed_point (tac : List TACInstr)
    (hwf : ∀ i ∈ tac, WF i)
    (hnored : List.Chain' (fun a b => ¬ specDeadPair a b ∧ ¬ specCancelPair a b) tac) :
    optimize_tac tac = tac ∧ optimize_tac (optimize_tac tac) = optimize_tac tac := by
  have main : ∀ l : List TACInstr, (∀ i ∈ l, WF i) →
      List.Chain' (fun a b => ¬ specDeadPair a b ∧ ¬ specCancelPair a b) l →
      optimize_tac l = l := by
    intro l
    induction l using optimize_tac.induct with
    | case1 => intro _ _; rfl
    | case2 c => intro _ _; rfl
    | case3 curr nxt rest hd ih =>
      intro hwf hch
      obtain ⟨⟨hnd, -⟩, -⟩ := List.chain'_cons.1 hch
      exact absurd ((dead_pair_iff_spec (hwf curr (by simp))).1 hd) hnd
    | case4 curr nxt rest h1 h2 ih =>
      intro hwf hch
      obtain ⟨⟨-, hnc⟩, -⟩ := List.chain'_cons.1 hch
      exact absurd
        ((cancel_pair_iff_spec (hwf curr (by simp)) (hwf nxt (by simp))).1 h2) hnc
    | case5 curr nxt rest h1 h2 ih =>
      intro hwf hch
      rw [optimize_tac, if_neg h1, if_neg h2,
        ih (fun i hi => hwf i (by simp at hi ⊢; tauto)) (List.chain'_cons.1 hch).2]
  have h := main tac hwf hnored
  exact ⟨h, by rw [h]; exact h⟩

theorem C7_optimize_fixed_point_witness :
    optimize_tac [⟨"call", some "move", some "t1", none⟩, ⟨"call", some "attack", none, none⟩] =
      [⟨"call", some "move", some "t1", none⟩, ⟨"call", some "attack", none, none⟩] ∧
    optimize_tac (optimize_tac
      [⟨"call", some "move", some "t1", none⟩, ⟨"call", some "attack", none, none⟩]) =
      optimize_tac
        [⟨"call", some "move", some "t1", none⟩, ⟨"call", some "attack", none, none⟩] :=
  C7_optimize_fixed_point
    [⟨"call", some "move", some "t1", none⟩, ⟨"call", some "attack", none, none⟩]
    (by decide)
    (List.chain'_cons.2 ⟨⟨by decide, by decide⟩, List.chain'_singleton _⟩)

/-- **C8**: running the whole pipeline twice on the same source text yields
identical action sequences.  The embedding is a pure function of the source
text alone: no counter, environment or token state survives a run of
`compile_and_run`, so the two components of `run_twice` coincide
definitionally. -/
theorem C8_pipeline_deterministic (text : String) :
    (run_twice text).1 = (run_twice text).2 := rfl

/-- **C9**: on every `Program` produced by parsing the lexer's output, the
semantic checker succeeds (the non-negativity and direction rules are always
satisfied post-parse) and the program flowing on to IR generation is exactly
the parsed program — the checker transforms nothing. -/
theorem C9_semantic_check_passes (text : String) (ts : List Token) (p : Program)
    (hlex : lex text = .ok ts) (hp : parse ts = .ok p) :
    semantic_check p = .ok () ∧ (semantic_check p).map (fun _ => p) = .ok p := by
  have hnum := lex_number_tokens hlex
  have hshape := parse_shape hp
  have hnn := parse_nonneg hp hnum
  have h1 : semantic_check p = .ok () :=
    semantic_check_ok p (fun s hs => semantic_check_stmt_ok s (hshape s hs) (hnn s hs))
  exact ⟨h1, by rw [h1]; rfl⟩

theorem C9_semantic_check_passes_witness :
    semantic_check ⟨[⟨"MOVE", some 1, none, 0⟩]⟩ = .ok () ∧
    (semantic_check ⟨[⟨"MOVE", some 1, none, 0⟩]⟩).map
        (fun _ => (⟨[⟨"MOVE", some 1, none, 0⟩]⟩ : Program)) =
      .ok ⟨[⟨"MOVE", some 1, none, 0⟩]⟩ :=
  C9_semantic_check_passes "move 1;"
    [⟨"MOVE", "move", 0⟩, ⟨"NUMBER", "1", 5⟩, ⟨"SEMICOLON", ";", 6⟩, ⟨"EOF", "", 7⟩]
    ⟨[⟨"MOVE", some 1, none, 0⟩]⟩ (by decide) (by decide)

/-- **C10**: the optimizer's output is a subsequence of its input — it only
deletes, never inserts, modifies or reorders — so the output length is at
most the input length and an empty input yields an empty output. -/
theorem C10_optimizer_subsequence (tac : List TACInstr) :
    (optimize_tac tac).Sublist tac ∧ (optimize_tac tac).length ≤ tac.length ∧
    optimize_tac ([] : List TACInstr) = [] :=
  ⟨optimize_tac_sublist tac, (optimize_tac_sublist tac).length_le, rfl⟩

end GameDSL
